import Mathlib

/-!
Verification development for the lessonLearnt FastAPI backend
(`src/config.py`, `src/main.py`).

The embedding models Python/JSON values as the inductive type `Json`,
and translates the functions of `src/main.py` into executable Lean
definitions:

* `clean_html`     — `clean_html` (main.py lines 41-45);
* `preprocess_query` — `preprocess_query` (lines 29-38);
* `extractStep`, `pageStep`, `fetchLoop`, `fetch_all_records`
                   — `fetch_all_records` (lines 48-107);
* `combinedText`, `searchMatches`, `search_records_body`,
  `search_records_query` — the `/search` endpoints (lines 153-199).

Modelling conventions: JSON numbers are integers (`Int`); the HTTP
transport is an injected function from token and page number to a
`PageResp`; exceptions are `Option`/explicit outcome constructors; the
unbounded `while` loop of `fetch_all_records` is given explicit fuel
(one unit per evaluation of the loop condition), with a distinguished
`fuelOut` outcome so that claims about termination are claims that
`fuelOut` is not reached.  Character-level semantics (regexes, `strip`,
`lower`) are modelled for the ASCII range the data uses; Python `repr`
quoting of nested strings is modelled without escape sequences.
-/

/-- A Python/JSON value as handled by `main.py`: `None`, booleans,
integers, strings, lists and dicts (dicts as association lists with
unique keys, looked up first-match like a Python dict). -/
inductive Json where
  | null : Json
  | bool : Bool → Json
  | num : Int → Json
  | str : String → Json
  | arr : List Json → Json
  | obj : List (String × Json) → Json

/-- Python truthiness (`bool(x)`) for the values of `Json`. -/
def pyTruthy : Json → Bool
  | .null => false
  | .bool b => b
  | .num n => n != 0
  | .str s => s.length != 0
  | .arr xs => !xs.isEmpty
  | .obj kvs => !kvs.isEmpty

/-- `x or y` in Python: `x` if truthy, else `y`. -/
def pyOr (a b : Json) : Json := if pyTruthy a then a else b

/-- Dict lookup (`d[k]` / `k in d`): first entry with the given key. -/
def lookupKV : List (String × Json) → String → Option Json
  | [], _ => none
  | (k, v) :: rest, key => if k = key then some v else lookupKV rest key

/-- Python whitespace as stripped by `str.strip()` (ASCII range). -/
def pyIsSpace (c : Char) : Bool :=
  c = ' ' || c = '\t' || c = '\n' || c = '\r' || c = Char.ofNat 11 || c = Char.ofNat 12

/-- `str.strip()`: drop leading and trailing whitespace characters. -/
def pyStrip (l : List Char) : List Char :=
  ((l.dropWhile pyIsSpace).reverse.dropWhile pyIsSpace).reverse

/-- Scan for the `>` closing a `<` in the non-greedy regex `<.*?>` of
`clean_html`: returns the characters after the first `>`, or `none` if
a newline (which `.` does not match) or the end of input comes first. -/
def findClose : List Char → Option (List Char)
  | [] => none
  | c :: rest =>
    if c = '>' then some rest
    else if c = '\n' then none
    else findClose rest

/-- `findClose` consumes at least the closing `>`. -/
def findClose_len : ∀ (l r : List Char), findClose l = some r → r.length < l.length := by
  intro l
  induction l with
  | nil => intro r h; simp [findClose] at h
  | cons a t ih =>
    intro r h
    by_cases ha : a = '>'
    · simp [findClose, ha] at h
      simp [← h]
    · by_cases hn : a = '\n'
      · simp [findClose, ha, hn] at h
      · simp [findClose, ha, hn] at h
        exact Nat.lt_succ_of_lt (ih r h)

/-- Fuelled scanner for `re.sub(r"<.*?>", "", ·)` over a character
list: each `<` that has a `>` later on the same line opens a removed
span ending at the first such `>`; a `<` with no close survives and
scanning continues.  Every step consumes at least one character, so
fuel equal to the list length computes the whole substitution. -/
def stripTagsF : Nat → List Char → List Char
  | _, [] => []
  | 0, l => l
  | f + 1, c :: rest =>
    if c = '<' then
      match findClose rest with
      | some rest2 => stripTagsF f rest2
      | none => c :: stripTagsF f rest
    else
      c :: stripTagsF f rest

/-- `re.sub(r"<.*?>", "", ·)` over a character list. -/
def stripTags (l : List Char) : List Char := stripTagsF l.length l

/-- The string body of `clean_html`: remove tag-like spans, then strip
surrounding whitespace (`re.sub(r"<.*?>", "", raw_text).strip()`). -/
def cleanStr (s : String) : String := String.mk (pyStrip (stripTags s.data))

/-- `clean_html` (main.py lines 41-45): non-string input is returned
unchanged; string input has tag-like spans removed and is stripped. -/
def clean_html : Json → Json
  | .str s => .str (cleanStr s)
  | v => v

/-- `str.lower()` (ASCII range). -/
def pyLower (s : String) : String := String.mk (s.data.map Char.toLower)

/-- A `\w` character for `re.findall(r'\w+', ·)` (ASCII range):
letters, digits, underscore. -/
def isWordChar (c : Char) : Bool := c.isAlphanum || c = '_'

/-- `re.findall(r'\w+', ·)`: the maximal runs of word characters, in
order.  The second argument accumulates the current run in reverse. -/
def wordRuns : List Char → List Char → List String
  | [], cur => if cur.isEmpty then [] else [String.mk cur.reverse]
  | c :: rest, cur =>
    if isWordChar c then wordRuns rest (c :: cur)
    else if cur.isEmpty then wordRuns rest []
    else String.mk cur.reverse :: wordRuns rest []

/-- The stopword list of `preprocess_query` (main.py lines 32-37). -/
def stopwords : List String :=
  ["show", "me", "all", "the", "lessons", "learnt", "about", "in", "for",
   "mitigant", "mitigants", "risk", "issues", "record", "records", "lesson",
   "please", "can", "you", "display", "client", "sector", "counter-party",
   "counter", "party"]

/-- `preprocess_query` (main.py lines 29-38): lowercase, split into
`\w+` runs, keep words not in the stopword list with length > 2. -/
def preprocess_query (query : String) : List String :=
  (wordRuns (pyLower query).data []).filter
    (fun w => !(stopwords.contains w) && decide (2 < w.length))

/-- The outcome of one transport call `requests.get(url, headers, timeout=20)`
followed by `response.json()`: either a decoded status and body, or a raised
exception (timeout, connection error, malformed JSON body). -/
inductive PageResp where
  | resp : Nat → Json → PageResp
  | exn : PageResp

/-- Outcome of the aggregation loop.  `ok` is a normal return of the
accumulated records; `err` is an uncaught `TypeError` from evaluating
`page <= total_pages` with a non-numeric `total_pages` (the comparison
sits outside the `try`, so it escapes `fetch_all_records`); `fuelOut`
marks exhaustion of the explicit fuel, not a behaviour of the code. -/
inductive FetchOut where
  | ok : List Json → FetchOut
  | err : FetchOut
  | fuelOut : FetchOut

/-- The integer value Python would use for `total_pages` in the
comparison `page <= total_pages`: `int` directly, `bool` as 0/1,
anything else is a `TypeError` (`none`). -/
def tpVal : Json → Option Int
  | .num m => some m
  | .bool b => some (if b then 1 else 0)
  | _ => none

/-- The loop condition `page <= total_pages` (main.py line 56). -/
def pyLeIntJson (page : Nat) (tp : Json) : Option Bool :=
  (tpVal tp).map (fun m => decide ((page : Int) ≤ m))

/-- The shape-extraction section of `fetch_all_records` (main.py lines
72-87), given the decoded body and the current `total_pages`; returns
the new `results` and `total_pages` values.  Branches that do not
assign `total_pages` keep the old value. -/
def extractStep (data : Json) (tp : Json) : Json × Json :=
  match data with
  | .obj kvs =>
    match lookupKV kvs "data" with
    | some inner =>
      match inner with
      | .obj ikvs =>
        (pyOr ((lookupKV ikvs "result").getD .null)
           (pyOr ((lookupKV ikvs "results").getD .null)
              (pyOr ((lookupKV ikvs "items").getD .null) (.arr []))),
         pyOr ((lookupKV ikvs "totalPages").getD .null)
           (pyOr ((lookupKV ikvs "total_pages").getD .null) (.num 1)))
      | .arr _ => (inner, .num 1)
      | _ => (.arr [], tp)
    | none =>
      (pyOr ((lookupKV kvs "results").getD (.arr [])) (.arr []),
       (lookupKV kvs "totalPages").getD (.num 1))
  | _ => (.arr [], tp)

/-- Substring test: Python `needle in hay` for strings, over char lists. -/
def containsSub (hay needle : List Char) : Bool :=
  match hay with
  | [] => needle.isEmpty
  | c :: t => needle.isPrefixOf (c :: t) || containsSub t needle

/-- The fields whose values the cleaning loop rewrites (main.py line 95). -/
def sanitizeFields : List String := ["title", "details", "lessonLearnt", "typeDescription"]

/-- One dict entry through the cleaning loop: a sanitize field whose
value is a string is replaced by its `clean_html`; all else unchanged. -/
def cleanEntry (kv : String × Json) : String × Json :=
  if sanitizeFields.contains kv.1 then
    match kv.2 with
    | .str s => (kv.1, .str (cleanStr s))
    | _ => kv
  else kv

/-- One record through the cleaning loop (main.py lines 94-97).  For a
dict, `field in r` tests keys and the matching string values are
cleaned.  For a string, `field in r` is a substring test and, if it
hits, `isinstance(r[field], str)` raises `TypeError` (`none`).  For a
list, `field in r` is a membership test and a hit raises `TypeError`
at the string-typed index.  Other values make `field in r` itself
raise `TypeError`. -/
def sanitizeRecord : Json → Option Json
  | .obj kvs => some (.obj (kvs.map cleanEntry))
  | .str s =>
    if sanitizeFields.any (fun f => containsSub s.data f.data) then none
    else some (.str s)
  | .arr xs =>
    if sanitizeFields.any (fun f => xs.any (fun e =>
         match e with
         | .str s => s == f
         | _ => false)) then none
    else some (.arr xs)
  | _ => none

/-- The cleaning loop over all records of a page; a raised `TypeError`
(`none`) aborts before `all_results.extend(results)` runs, losing the
whole page. -/
def sanitizeAll : List Json → Option (List Json)
  | [] => some []
  | r :: rs =>
    match sanitizeRecord r with
    | none => none
    | some r2 =>
      match sanitizeAll rs with
      | none => none
      | some rest => some (r2 :: rest)

/-- Iteration of `for r in results` / `extend(results)` when `results`
is not necessarily a list: a string yields its characters, a dict its
keys, non-iterables raise `TypeError` (`none`). -/
def resultsIter : Json → Option (List Json)
  | .arr xs => some xs
  | .str s => some (s.data.map (fun c => Json.str (String.mk [c])))
  | .obj kvs => some (kvs.map (fun kv => Json.str kv.1))
  | _ => none

/-- The body of the `try` block after a 2xx/3xx response (main.py lines
68-100): `data.keys()` raises `AttributeError` unless the body is a
dict; then shape extraction, the `if not results: break` check, record
cleaning, and extension of the accumulator.  `none` means the loop
breaks with nothing appended (exception caught at line 102, or the
explicit empty-results `break`); `some (recs, tp)` means `recs` are
appended and `total_pages` becomes `tp`. -/
def pageStep (body : Json) (tp : Json) : Option (List Json × Json) :=
  match body with
  | .obj _ =>
    let et := extractStep body tp
    if pyTruthy et.1 then
      match resultsIter et.1 with
      | none => none
      | some xs =>
        match sanitizeAll xs with
        | none => none
        | some cleaned => some (cleaned, et.2)
    else none
  | _ => none

/-- One full loop iteration after the condition holds (main.py lines
57-104): a transport exception, a 401 (the `HTTPException` raised at
line 65 is itself caught by the bare `except Exception` at line 102),
or a `raise_for_status` on any 4xx/5xx status all break the loop
(`none`); otherwise the try-block body runs on the decoded JSON. -/
def fetchStep (pages : Nat → PageResp) (page : Nat) (tp : Json) : Option (List Json × Json) :=
  match pages page with
  | .exn => none
  | .resp status body =>
    if status = 401 then none
    else if 400 ≤ status then none
    else pageStep body tp

/-- The `while page <= total_pages` loop of `fetch_all_records`
(main.py lines 56-104), with explicit fuel.  Besides the accumulated
records it returns a trace: one `(page, total_pages)` pair per fully
successful iteration, recording the page number and the `total_pages`
value just assigned on that iteration. -/
def fetchLoop (pages : Nat → PageResp) :
    Nat → Nat → Json → List Json → List (Nat × Json) → FetchOut × List (Nat × Json)
  | 0, _, _, _, trc => (.fuelOut, trc)
  | fuel + 1, page, tp, acc, trc =>
    match pyLeIntJson page tp with
    | none => (.err, trc)
    | some false => (.ok acc, trc)
    | some true =>
      match fetchStep pages page tp with
      | none => (.ok acc, trc)
      | some (recs, tp2) =>
        fetchLoop pages fuel (page + 1) tp2 (acc ++ recs) (trc ++ [(page, tp2)])

/-- `fetch_all_records(token)` (main.py lines 48-107): page 1,
`total_pages = 1`, empty accumulator.  The transport closes over the
token (the headers of `config.get_auth_headers`). -/
def fetch_all_records (transport : String → Nat → PageResp) (fuel : Nat) (token : String) :
    FetchOut × List (Nat × Json) :=
  fetchLoop (transport token) fuel 1 (.num 1) [] []

/-- A single-quote character, for Python `repr` of strings. -/
def squote : String := String.mk [Char.ofNat 39]

mutual
/-- Python `repr` of a value, as `str()` shows nested lists/dicts.
Escape sequences inside nested strings are not modelled (the records
the claims use have plain string fields). -/
def pyRepr : Json → String
  | .null => "None"
  | .bool true => "True"
  | .bool false => "False"
  | .num n => toString n
  | .str s => squote ++ s ++ squote
  | .arr xs => "[" ++ pyReprItems xs ++ "]"
  | .obj kvs => "\x7b" ++ pyReprEntries kvs ++ "\x7d"

/-- Comma-joined `repr`s of list items. -/
def pyReprItems : List Json → String
  | [] => ""
  | [x] => pyRepr x
  | x :: y :: rest => pyRepr x ++ ", " ++ pyReprItems (y :: rest)

/-- Comma-joined `repr`s of dict entries. -/
def pyReprEntries : List (String × Json) → String
  | [] => ""
  | [(k, v)] => squote ++ k ++ squote ++ ": " ++ pyRepr v
  | (k, v) :: e :: rest =>
    squote ++ k ++ squote ++ ": " ++ pyRepr v ++ ", " ++ pyReprEntries (e :: rest)
end

/-- Python `str()` of a value: strings unchanged, all else via `repr`
(which for `None`/`True`/`False`/ints coincides with `str`). -/
def pyStr : Json → String
  | .str s => s
  | v => pyRepr v

/-- The text projection of one record in `search_records_body`
(main.py lines 170-178): `str()` of seven fields joined by single
spaces, lowercased.  `r.get(...)` requires `r` to be a dict and
`r.get("consultantTransaction", {})` must itself be a dict (else
`.get` raises `AttributeError`, `none`). -/
def combinedText (r : Json) : Option String :=
  match r with
  | .obj kvs =>
    match (lookupKV kvs "consultantTransaction").getD (.obj []) with
    | .obj ckvs =>
      some (pyLower (String.intercalate " "
        [pyStr ((lookupKV kvs "title").getD (.str "")),
         pyStr ((lookupKV kvs "details").getD (.str "")),
         pyStr ((lookupKV kvs "lessonLearnt").getD (.str "")),
         pyStr ((lookupKV kvs "typeDescription").getD (.str "")),
         pyStr ((lookupKV ckvs "transactionName").getD (.str "")),
         pyStr ((lookupKV ckvs "portfolioName").getD (.str "")),
         pyStr ((lookupKV ckvs "sector").getD (.str ""))]))
    | _ => none
  | _ => none

/-- Python `k in t` on strings. -/
def strContains (t k : String) : Bool := containsSub t.data k.data

/-- The match loop of `search_records_body` (main.py lines 169-181):
keep each record at least one keyword of which is a substring of its
projection; a record whose projection raises propagates the exception
(`none`, surfaced by FastAPI as a server error). -/
def searchMatches : List Json → List String → Option (List Json)
  | [], _ => some []
  | r :: rs, keywords =>
    match combinedText r with
    | none => none
    | some t =>
      match searchMatches rs keywords with
      | none => none
      | some ms =>
        some (if keywords.any (fun k => strContains t k) then r :: ms else ms)

/-- The request body of `POST /search` (main.py lines 149-150). -/
structure SearchRequest where
  query : String

/-- Observable outcome of a `/search` call: a JSON payload, an
`HTTPException`, an uncaught exception (HTTP 500), or fuel exhaustion
of the embedded fetch loop. -/
inductive SearchOut where
  | ok : String → List String → Nat → List Json → SearchOut
  | httpError : Nat → String → SearchOut
  | serverError : SearchOut
  | fuelOut : SearchOut

/-- `search_records_body` (main.py lines 153-188): tokenize, reject an
empty keyword list with a 400, fetch all records, filter by substring
match, and answer with query, keywords, match count and matches. -/
def search_records_body (transport : String → Nat → PageResp) (fuel : Nat)
    (request : SearchRequest) (token : String) : SearchOut :=
  let keywords := preprocess_query request.query
  if keywords.isEmpty then
    .httpError 400 "No valid keywords found in your query."
  else
    match fetch_all_records transport fuel token with
    | (.fuelOut, _) => .fuelOut
    | (.err, _) => .serverError
    | (.ok records, _) =>
      match searchMatches records keywords with
      | none => .serverError
      | some ms => .ok request.query keywords ms.length ms

/-- `search_records_query` (main.py lines 192-199): wrap the `query`
URL parameter in a `SearchRequest` and delegate to the body handler. -/
def search_records_query (transport : String → Nat → PageResp) (fuel : Nat)
    (q : String) (token : String) : SearchOut :=
  let request : SearchRequest := { query := q }
  search_records_body transport fuel request token

/-- Modelled from the spec: the text projection the fuzzy-ranked
search scores against — src/main.py contains no fuzzy endpoint, so
§4.5 "the same text projection" is taken to be `combinedText`, with an
undefined projection read as the empty string. -/
def fuzzyProj (r : Json) : String := (combinedText r).getD ""

/-- Modelled from the spec: §4.5 fuzzy mode sums one 0-100
per-keyword similarity score per record; comparisons of the average
against thresholds are phrased on the sum (`sum > 60·n` iff the exact
average exceeds 60). -/
def fuzzyTotal (score : String → String → Nat) (keywords : List String) (r : Json) : Nat :=
  (keywords.map (fun k => score k (fuzzyProj r))).sum

/-- Modelled from the spec: records whose average score exceeds the
fixed threshold 60, paired with their summed score. -/
def fuzzyKept (score : String → String → Nat) (records : List Json)
    (keywords : List String) : List (Json × Nat) :=
  (records.map (fun r => (r, fuzzyTotal score keywords r))).filter
    (fun p => decide (60 * keywords.length < p.2))

/-- Stable descending insertion: an element goes before the first
earlier-scored-or-equal entry, so equal scores keep collection order. -/
def insertDesc (x : Json × Nat) : List (Json × Nat) → List (Json × Nat)
  | [] => [x]
  | y :: ys => if y.2 ≤ x.2 then x :: y :: ys else y :: insertDesc x ys

/-- Modelled from the spec: stable sort by descending score. -/
def sortDesc : List (Json × Nat) → List (Json × Nat)
  | [] => []
  | x :: xs => insertDesc x (sortDesc xs)

/-- Modelled from the spec: §4.5 fuzzy mode — filter by the 60
threshold, sort descending by score (stably), truncate to 20. -/
def fuzzySearch (score : String → String → Nat) (records : List Json)
    (keywords : List String) : List (Json × Nat) :=
  (sortDesc (fuzzyKept score records keywords)).take 20

/-- `true` iff some `<` in the list has a matching same-line `>` after
it, i.e. iff `re.sub(r"<.*?>", "", ·)` would remove something. -/
def hasTag : List Char → Bool
  | [] => false
  | c :: rest => (c = '<' && (findClose rest).isSome) || hasTag rest

/-- `true` iff the list neither starts nor ends with Python whitespace
(so `.strip()` leaves it unchanged). -/
def noEdgeWS (l : List Char) : Bool :=
  l.head?.all (fun c => !pyIsSpace c) && l.getLast?.all (fun c => !pyIsSpace c)

/-- Fixture: `{title: "Energy project A"}` from the spec's §8 example. -/
def recEnergy : Json := .obj [("title", .str "Energy project A")]

/-- Fixture: `{title: "Water project B"}` from the spec's §8 example. -/
def recWater : Json := .obj [("title", .str "Water project B")]

/-- Fixture record for the two-page fetch scenario. -/
def c4rec1 : Json := .obj [("title", .str "Alpha")]

/-- Fixture record for the two-page fetch scenario. -/
def c4rec2 : Json := .obj [("title", .str "Beta")]

/-- Fixture page body: two records under `data.result`, `totalPages = 2`. -/
def c4body : Json :=
  .obj [("data", .obj [("result", .arr [c4rec1, c4rec2]), ("totalPages", .num 2)])]

/-- Fixture transport: page 1 succeeds with `c4body`, page 2 times out. -/
def c4transport : String → Nat → PageResp :=
  fun _ p => if p = 1 then .resp 200 c4body else .exn

/-- Fixture body that is itself a flat list of record objects. -/
def flatBody : Json := .arr [.obj [("title", .str "Flat")]]

/-- Fixture page body claiming `totalPages = 2`. -/
def c6page1 : Json :=
  .obj [("data", .obj [("result", .arr [recEnergy]), ("totalPages", .num 2)])]

/-- Fixture page body claiming `totalPages = 1` (below the page number 2
at which it is fetched). -/
def c6page2 : Json :=
  .obj [("data", .obj [("result", .arr [recWater]), ("totalPages", .num 1)])]

/-- Fixture transport whose page 2 response shrinks `totalPages` to 1. -/
def c6transport : String → Nat → PageResp :=
  fun _ p => if p = 1 then .resp 200 c6page1 else .resp 200 c6page2

/-- Fixture page body: one record under top-level `results`, `totalPages = 3`. -/
def c5okBody : Json := .obj [("results", .arr [recEnergy]), ("totalPages", .num 3)]

/-- Fixture transport answering every page with `c5okBody`. -/
def c5okPages : Nat → PageResp := fun _ => .resp 200 c5okBody

/-- Fixture page body with an empty record list but `totalPages = 5`. -/
def c5emptyBody : Json := .obj [("results", .arr []), ("totalPages", .num 5)]

/-- Fixture transport answering every page with `c5emptyBody`. -/
def c5emptyPages : Nat → PageResp := fun _ => .resp 200 c5emptyBody

/-- Fixture similarity measure: constant score 90. -/
def c9score : String → String → Nat := fun _ _ => 90

/-! ## Lemmas about `clean_html` -/

theorem option_isSome_false {α : Type} {o : Option α} (h : o.isSome = false) : o = none := by
  cases o
  · rfl
  · simp at h

theorem findClose_cons_other (c : Char) (rest : List Char) (h1 : ¬ c = '>') (h2 : ¬ c = '\n') :
    findClose (c :: rest) = findClose rest := by
  simp [findClose, h1, h2]

theorem stripTagsF_irrel : ∀ (f1 : Nat) (l : List Char) (f2 : Nat),
    l.length ≤ f1 → l.length ≤ f2 → stripTagsF f1 l = stripTagsF f2 l := by
  intro f1
  induction f1 with
  | zero =>
    intro l f2 h1 h2
    have : l = [] := List.eq_nil_of_length_eq_zero (Nat.le_zero.mp h1)
    subst this
    cases f2 <;> rfl
  | succ f ih =>
    intro l f2 h1 h2
    cases l with
    | nil => cases f2 <;> rfl
    | cons c rest =>
      cases f2 with
      | zero => exact absurd h2 (by simp)
      | succ g =>
        simp only [List.length_cons, Nat.succ_le_succ_iff] at h1 h2
        simp only [stripTagsF]
        by_cases hc : c = '<'
        · rw [if_pos hc, if_pos hc]
          cases hf : findClose rest with
          | some rest2 =>
            have hlt : rest2.length < rest.length := findClose_len rest rest2 hf
            exact ih rest2 g (Nat.le_of_lt (Nat.lt_of_lt_of_le hlt h1))
              (Nat.le_of_lt (Nat.lt_of_lt_of_le hlt h2))
          | none => rw [ih rest g h1 h2]
        · rw [if_neg hc, if_neg hc, ih rest g h1 h2]

theorem stripTags_nil : stripTags [] = [] := rfl

theorem stripTags_cons_some (rest rest2 : List Char) (hf : findClose rest = some rest2) :
    stripTags ('<' :: rest) = stripTags rest2 := by
  show stripTagsF (rest.length + 1) ('<' :: rest) = stripTags rest2
  simp only [stripTagsF, if_pos rfl, hf]
  exact stripTagsF_irrel rest.length rest2 rest2.length
    (Nat.le_of_lt (findClose_len rest rest2 hf)) (Nat.le_refl _)

theorem stripTags_cons_none (rest : List Char) (hf : findClose rest = none) :
    stripTags ('<' :: rest) = '<' :: stripTags rest := by
  show stripTagsF (rest.length + 1) ('<' :: rest) = '<' :: stripTags rest
  simp only [stripTagsF, hf]
  rw [if_pos trivial]
  rfl

theorem stripTags_cons_ne (c : Char) (rest : List Char) (hc : ¬ c = '<') :
    stripTags (c :: rest) = c :: stripTags rest := by
  show stripTagsF (rest.length + 1) (c :: rest) = c :: stripTags rest
  simp only [stripTagsF, if_neg hc]
  rfl

theorem findClose_append_none (a b : List Char) (h : findClose (a ++ b) = none) :
    findClose a = none := by
  induction a with
  | nil => rfl
  | cons c t ih =>
    simp only [List.cons_append, findClose] at h ⊢
    by_cases hc : c = '>'
    · simp [hc] at h
    · by_cases hn : c = '\n'
      · simp [hc, hn]
      · simp only [hc, hn, if_false] at h ⊢
        exact ih h

theorem hasTag_append (a b : List Char) (h : hasTag (a ++ b) = false) :
    hasTag a = false ∧ hasTag b = false := by
  induction a with
  | nil => exact ⟨rfl, h⟩
  | cons c t ih =>
    simp only [List.cons_append, hasTag, Bool.or_eq_false_iff, Bool.and_eq_false_iff] at h ⊢
    obtain ⟨h1, h2⟩ := h
    obtain ⟨ht, hb⟩ := ih h2
    refine ⟨⟨?_, ht⟩, hb⟩
    rcases h1 with h1 | h1
    · exact Or.inl h1
    · have hn : findClose (t ++ b) = none := option_isSome_false h1
      have hn2 : findClose t = none := findClose_append_none t b hn
      exact Or.inr (by rw [hn2]; rfl)

theorem findClose_stripTagsF : ∀ (f : Nat) (l : List Char), l.length ≤ f →
    findClose l = none → findClose (stripTagsF f l) = none := by
  intro f
  induction f with
  | zero =>
    intro l h1 h
    have : l = [] := List.eq_nil_of_length_eq_zero (Nat.le_zero.mp h1)
    subst this
    exact h
  | succ g ih =>
    intro l h1 h
    cases l with
    | nil => exact h
    | cons c rest =>
      simp only [List.length_cons, Nat.succ_le_succ_iff] at h1
      simp only [stripTagsF]
      by_cases hc : c = '<'
      · rw [if_pos hc]
        have hrest : findClose rest = none := by
          subst hc
          rwa [findClose_cons_other '<' rest (by decide) (by decide)] at h
        rw [hrest]
        subst hc
        rw [findClose_cons_other '<' _ (by decide) (by decide)]
        exact ih rest h1 hrest
      · rw [if_neg hc]
        by_cases hg : c = '>'
        · simp [findClose, hg] at h
        · by_cases hn : c = '\n'
          · simp [findClose, hn]
          · rw [findClose_cons_other c _ hg hn]
            rw [findClose_cons_other c rest hg hn] at h
            exact ih rest h1 h

theorem findClose_stripTags (l : List Char) (h : findClose l = none) :
    findClose (stripTags l) = none :=
  findClose_stripTagsF l.length l (Nat.le_refl _) h

theorem hasTag_stripTagsF : ∀ (f : Nat) (l : List Char), l.length ≤ f →
    hasTag (stripTagsF f l) = false := by
  intro f
  induction f with
  | zero =>
    intro l h1
    have : l = [] := List.eq_nil_of_length_eq_zero (Nat.le_zero.mp h1)
    subst this
    rfl
  | succ g ih =>
    intro l h1
    cases l with
    | nil => rfl
    | cons c rest =>
      simp only [List.length_cons, Nat.succ_le_succ_iff] at h1
      simp only [stripTagsF]
      by_cases hc : c = '<'
      · rw [if_pos hc]
        cases hf : findClose rest with
        | some rest2 =>
          exact ih rest2 (Nat.le_of_lt (Nat.lt_of_lt_of_le (findClose_len rest rest2 hf) h1))
        | none =>
          have hfs : findClose (stripTagsF g rest) = none := findClose_stripTagsF g rest h1 hf
          simp [hasTag, hfs, ih rest h1]
      · rw [if_neg hc]
        simp [hasTag, hc, ih rest h1]

theorem hasTag_stripTags (l : List Char) : hasTag (stripTags l) = false :=
  hasTag_stripTagsF l.length l (Nat.le_refl _)

theorem stripTags_eq_self (l : List Char) (h : hasTag l = false) : stripTags l = l := by
  induction l with
  | nil => exact stripTags_nil
  | cons c rest ih =>
    simp only [hasTag, Bool.or_eq_false_iff, Bool.and_eq_false_iff] at h
    by_cases hc : c = '<'
    · have hnone : findClose rest = none := by
        rcases h.1 with h1 | h1
        · simp [hc] at h1
        · exact option_isSome_false h1
      subst hc
      rw [stripTags_cons_none rest hnone, ih h.2]
    · rw [stripTags_cons_ne c rest hc, ih h.2]

theorem stripTags_idem (l : List Char) : stripTags (stripTags l) = stripTags l :=
  stripTags_eq_self _ (hasTag_stripTags l)

theorem dropWhileHeadFalse {p : Char → Bool} :
    ∀ (l : List Char) (c : Char), (l.dropWhile p).head? = some c → p c = false := by
  intro l
  induction l with
  | nil => intro c h; cases h
  | cons a t ih =>
    intro c h
    by_cases ha : p a
    · rw [List.dropWhile_cons_of_pos ha] at h
      exact ih c h
    · rw [List.dropWhile_cons_of_neg ha] at h
      cases h
      exact Bool.not_eq_true _ ▸ (by simpa using ha)

theorem dropWhileEqSelf {p : Char → Bool} (l : List Char)
    (h : l.head?.all (fun c => !p c) = true) : l.dropWhile p = l := by
  cases l with
  | nil => rfl
  | cons a t =>
    have ha : p a = false := by
      simp only [List.head?, Option.all, Bool.not_eq_true'] at h
      exact h
    rw [List.dropWhile_cons_of_neg (by simp [ha])]

theorem pyStrip_eq_self (l : List Char) (h : noEdgeWS l = true) : pyStrip l = l := by
  simp only [noEdgeWS, Bool.and_eq_true] at h
  have e1 : l.dropWhile pyIsSpace = l := dropWhileEqSelf l h.1
  have e2 : l.reverse.dropWhile pyIsSpace = l.reverse := by
    apply dropWhileEqSelf
    rw [List.head?_reverse]
    exact h.2
  unfold pyStrip
  rw [e1, e2, List.reverse_reverse]

theorem pyStrip_noEdge (l : List Char) : noEdgeWS (pyStrip l) = true := by
  have key : ∀ (r : List Char), r = (l.dropWhile pyIsSpace).reverse.dropWhile pyIsSpace →
      noEdgeWS r.reverse = true := by
    intro r hr
    cases hrc : r with
    | nil => rfl
    | cons a t =>
      subst hrc
      have hpa : pyIsSpace a = false := dropWhileHeadFalse _ a (by rw [← hr]; rfl)
      have hsplit : ((l.dropWhile pyIsSpace).reverse.takeWhile pyIsSpace) ++ (a :: t)
          = (l.dropWhile pyIsSpace).reverse := by
        rw [hr]
        exact List.takeWhile_append_dropWhile pyIsSpace _
      have hgl : (a :: t).getLast? = (l.dropWhile pyIsSpace).head? := by
        rw [← List.getLast?_reverse (l.dropWhile pyIsSpace), ← hsplit]
        exact (List.getLast?_append_of_ne_nil _ (by simp)).symm
      cases hmh : (l.dropWhile pyIsSpace).head? with
      | none =>
        have hnil : l.dropWhile pyIsSpace = [] := by
          cases hc : l.dropWhile pyIsSpace with
          | nil => rfl
          | cons x y => rw [hc] at hmh; cases hmh
        rw [hnil] at hr
        simp only [List.reverse_nil, List.dropWhile_nil] at hr
        cases hr
      | some b =>
        have hpb : pyIsSpace b = false := dropWhileHeadFalse l b hmh
        unfold noEdgeWS
        rw [List.head?_reverse, List.getLast?_reverse, hgl, hmh]
        simp [Option.all, hpa, hpb]
  exact key _ rfl

theorem hasTag_pyStrip (l : List Char) (h : hasTag l = false) : hasTag (pyStrip l) = false := by
  have h1 : hasTag (l.dropWhile pyIsSpace) = false := by
    have e := List.takeWhile_append_dropWhile pyIsSpace l
    have h0 : hasTag (l.takeWhile pyIsSpace ++ l.dropWhile pyIsSpace) = false := by
      rw [e]; exact h
    exact (hasTag_append _ _ h0).2
  have e2 := List.takeWhile_append_dropWhile pyIsSpace (l.dropWhile pyIsSpace).reverse
  have e3 : (l.dropWhile pyIsSpace)
      = ((l.dropWhile pyIsSpace).reverse.dropWhile pyIsSpace).reverse
        ++ ((l.dropWhile pyIsSpace).reverse.takeWhile pyIsSpace).reverse := by
    have e4 := congrArg List.reverse e2
    rw [List.reverse_append, List.reverse_reverse] at e4
    exact e4.symm
  have h2 : hasTag (((l.dropWhile pyIsSpace).reverse.dropWhile pyIsSpace).reverse
      ++ ((l.dropWhile pyIsSpace).reverse.takeWhile pyIsSpace).reverse) = false := by
    rw [← e3]; exact h1
  exact (hasTag_append _ _ h2).1

theorem cleanStr_eq_self (s : String) (ht : hasTag s.data = false) (hw : noEdgeWS s.data = true) :
    cleanStr s = s := by
  unfold cleanStr
  rw [stripTags_eq_self _ ht, pyStrip_eq_self _ hw]

theorem cleanStr_idem (s : String) : cleanStr (cleanStr s) = cleanStr s := by
  show String.mk (pyStrip (stripTags (cleanStr s).data)) = cleanStr s
  have hd : (cleanStr s).data = pyStrip (stripTags s.data) := rfl
  rw [hd]
  rw [stripTags_eq_self _ (hasTag_pyStrip _ (hasTag_stripTags s.data))]
  rw [pyStrip_eq_self _ (pyStrip_noEdge (stripTags s.data))]
  rfl

/-! ## Claim theorems: C7, C2, C10 -/

/-- C7: `clean_html` never raises — non-string input is returned
unchanged; every tag-like (`<...>`) span of a string input is removed
(the output contains no further match of the pattern); a string with
no tag-like pattern and no surrounding whitespace is unaltered; and
`clean_html` is idempotent on every input. -/
theorem c7_clean :
    (∀ v : Json, (∀ s, v ≠ .str s) → clean_html v = v)
    ∧ (∀ s : String, hasTag (stripTags s.data) = false)
    ∧ (∀ s : String, hasTag s.data = false → noEdgeWS s.data = true →
        clean_html (.str s) = .str s)
    ∧ (∀ v : Json, clean_html (clean_html v) = clean_html v) := by
  refine ⟨?_, ?_, ?_, ?_⟩
  · intro v hv
    cases v with
    | str s => exact absurd rfl (hv s)
    | null => rfl
    | bool b => rfl
    | num n => rfl
    | arr xs => rfl
    | obj kvs => rfl
  · intro s
    exact hasTag_stripTags s.data
  · intro s ht hw
    show Json.str (cleanStr s) = Json.str s
    rw [cleanStr_eq_self s ht hw]
  · intro v
    cases v with
    | str s =>
      show Json.str (cleanStr (cleanStr s)) = Json.str (cleanStr s)
      rw [cleanStr_idem]
    | null => rfl
    | bool b => rfl
    | num n => rfl
    | arr xs => rfl
    | obj kvs => rfl

/-- Witness for C7 at concrete inputs: a number passes through
unchanged and a plain string is unaltered. -/
theorem c7_witness :
    clean_html (Json.num 5) = Json.num 5 ∧ clean_html (Json.str "abc") = Json.str "abc" :=
  ⟨c7_clean.1 (Json.num 5) (fun s h => Json.noConfusion h),
   c7_clean.2.2.1 "abc" rfl rfl⟩

/-- C2 counterexample: on the spec's example query, `preprocess_query`
does not return `["market"]` — the word "and" (3 characters, not a
stopword) also survives. -/
theorem c2_counterexample :
    preprocess_query "Show me all the Risk issues and mitigants for Market Risk"
      ≠ ["market"] := by
  decide

/-- C2 (amended): on the spec's example query, `preprocess_query`
returns `["and", "market"]`: every other word is a stopword or shorter
than 3 characters, but "and" is not in the stopword set and has
exactly 3 characters, so it is kept alongside "market". -/
theorem c2_amended_eval :
    preprocess_query "Show me all the Risk issues and mitigants for Market Risk"
      = ["and", "market"] := by
  decide

/-- C10: the `GET /search` handler is definitionally the `POST /search`
handler applied to the request built from the `query` parameter, for
every transport, fuel, query string and credential token. -/
theorem c10_get_post_equiv :
    ∀ (transport : String → Nat → PageResp) (fuel : Nat) (q token : String),
      search_records_query transport fuel q token
        = search_records_body transport fuel { query := q } token :=
  fun _ _ _ _ => rfl

/-! ## Claim theorems: C1, C4, C3, C6 -/

/-- C1 (code-bug evaluation): with an upstream answering HTTP 401 on
every page, `fetch_all_records` returns a normal empty record
collection — the `HTTPException(401)` raised at main.py line 65 is
swallowed by the bare `except Exception` at line 102 and the loop just
breaks — instead of propagating an Unauthorized error to the caller
as the spec requires. -/
theorem c1_code_bug_eval :
    (fetch_all_records (fun _ _ => .resp 401 .null) 5 "token").1 = .ok [] := rfl

/-- C4: on any iteration whose transport call raises a non-HTTP
exception (timeout, connection error, malformed body), the loop stops
and returns exactly the records accumulated from the earlier pages,
with no error; in particular, with page 1 delivering two records
(`totalPages = 2`) and page 2 timing out, exactly those two records
(HTML-cleaned) are returned. -/
theorem c4_degrade :
    (∀ (pages : Nat → PageResp) (fuel page : Nat) (tp : Json) (acc : List Json)
       (trc : List (Nat × Json)),
       pyLeIntJson page tp = some true → pages page = .exn →
       (fetchLoop pages (fuel + 1) page tp acc trc).1 = .ok acc)
    ∧ (fetch_all_records c4transport 5 "token").1 = .ok [c4rec1, c4rec2] := by
  constructor
  · intro pages fuel page tp acc trc hcond hexn
    simp only [fetchLoop, hcond, fetchStep, hexn]
  · rfl

/-- Witness for C4: a transport that raises immediately makes the loop
return the accumulator unchanged. -/
theorem c4_witness :
    (fetchLoop (fun _ => PageResp.exn) 1 1 (Json.num 1) [Json.null] []).1
      = .ok [Json.null] :=
  c4_degrade.1 (fun _ => PageResp.exn) 0 1 (Json.num 1) [Json.null] [] rfl rfl

/-- C3 counterexample: a body that is itself a flat list of objects
yields no records at all, not the list itself — `list(data.keys())`
(main.py line 69) raises `AttributeError` on a list, the exception is
caught at line 102, and the loop breaks with an empty collection. -/
theorem c3_counterexample :
    pageStep flatBody (.num 1) = none
    ∧ (fetch_all_records (fun _ _ => .resp 200 flatBody) 3 "token").1 = .ok [] :=
  ⟨rfl, rfl⟩

/-- C3 (amended): the code recovers the record list and page count for
`data` a list (`totalPages` always 1), for `data` a mapping with
`result`, `results` or `items` (page count from the mapping's
`totalPages`, nonzero, defaulting through the or-chain), and for
top-level `results` with top-level `totalPages` (any value); but a
flat-list body raises at the `keys()` debug line and contributes
nothing, and a top-level `items` key is never consulted, yielding an
empty record list. -/
theorem c3_amended :
    (∀ (xs : List Json) (tp : Json),
       extractStep (.obj [("data", .arr xs)]) tp = (.arr xs, .num 1))
    ∧ (∀ (xs : List Json) (t : Int) (tp : Json), xs ≠ [] → t ≠ 0 →
       extractStep (.obj [("data", .obj [("result", .arr xs), ("totalPages", .num t)])]) tp
         = (.arr xs, .num t))
    ∧ (∀ (xs : List Json) (t : Int) (tp : Json), xs ≠ [] → t ≠ 0 →
       extractStep (.obj [("data", .obj [("results", .arr xs), ("totalPages", .num t)])]) tp
         = (.arr xs, .num t))
    ∧ (∀ (xs : List Json) (t : Int) (tp : Json), xs ≠ [] → t ≠ 0 →
       extractStep (.obj [("data", .obj [("items", .arr xs), ("totalPages", .num t)])]) tp
         = (.arr xs, .num t))
    ∧ (∀ (xs : List Json) (t : Int) (tp : Json), xs ≠ [] →
       extractStep (.obj [("results", .arr xs), ("totalPages", .num t)]) tp
         = (.arr xs, .num t))
    ∧ (∀ (xs : List Json) (tp : Json), pageStep (.arr xs) tp = none)
    ∧ (∀ (xs : List Json) (tp : Json),
       extractStep (.obj [("items", .arr xs)]) tp = (.arr [], .num 1)) := by
  have htru : ∀ (xs : List Json), xs ≠ [] → pyTruthy (.arr xs) = true := by
    intro xs hxs
    cases xs with
    | nil => exact absurd rfl hxs
    | cons a t => rfl
  have hnum : ∀ (t : Int), t ≠ 0 → pyTruthy (.num t) = true := by
    intro t ht
    simp [pyTruthy, ht]
  refine ⟨fun xs tp => rfl, ?_, ?_, ?_, ?_, fun xs tp => rfl, fun xs tp => rfl⟩
  · intro xs t tp hxs ht
    have e : extractStep
        (.obj [("data", .obj [("result", .arr xs), ("totalPages", .num t)])]) tp
        = (pyOr (.arr xs) (pyOr .null (pyOr .null (.arr []))),
           pyOr (.num t) (pyOr .null (.num 1))) := rfl
    rw [e]
    simp [pyOr, htru xs hxs, hnum t ht]
  · intro xs t tp hxs ht
    have e : extractStep
        (.obj [("data", .obj [("results", .arr xs), ("totalPages", .num t)])]) tp
        = (pyOr .null (pyOr (.arr xs) (pyOr .null (.arr []))),
           pyOr (.num t) (pyOr .null (.num 1))) := rfl
    rw [e]
    simp [pyOr, pyTruthy, htru xs hxs, hnum t ht, ht]
  · intro xs t tp hxs ht
    have e : extractStep
        (.obj [("data", .obj [("items", .arr xs), ("totalPages", .num t)])]) tp
        = (pyOr .null (pyOr .null (pyOr (.arr xs) (.arr []))),
           pyOr (.num t) (pyOr .null (.num 1))) := rfl
    rw [e]
    simp [pyOr, pyTruthy, htru xs hxs, hnum t ht, ht]
  · intro xs t tp hxs
    have e : extractStep (.obj [("results", .arr xs), ("totalPages", .num t)]) tp
        = (pyOr (.arr xs) (.arr []), .num t) := rfl
    rw [e]
    simp [pyOr, htru xs hxs]

/-- Witness for C3 (amended) at concrete shapes, including a zero
top-level `totalPages` that is taken verbatim. -/
theorem c3_witness :
    extractStep (.obj [("data", .obj [("result", .arr [Json.null]),
        ("totalPages", .num 2)])]) (.num 1) = (.arr [Json.null], .num 2)
    ∧ extractStep (.obj [("results", .arr [Json.null]), ("totalPages", .num 0)]) (.num 1)
        = (.arr [Json.null], .num 0) :=
  ⟨c3_amended.2.1 [Json.null] 2 (.num 1) (by simp) (by decide),
   c3_amended.2.2.2.2.1 [Json.null] 0 (.num 1) (by simp)⟩

/-- C6 counterexample: the run against `c6transport` produces the
update trace `[(1, 2), (2, 1)]` — the successful update on page 2
assigns `totalPages = 1`, strictly below the current page number, so
the claimed invariant `page ≤ totalPages` fails at that update. -/
theorem c6_counterexample :
    ¬ (∀ e ∈ (fetch_all_records c6transport 5 "token").2,
        pyLeIntJson e.1 e.2 = some true) := by
  intro h
  have htr : (fetch_all_records c6transport 5 "token").2
      = [(1, Json.num 2), (2, Json.num 1)] := rfl
  have hmem : ((2, Json.num 1) : Nat × Json) ∈ (fetch_all_records c6transport 5 "token").2 := by
    rw [htr]
    exact List.Mem.tail _ (List.Mem.head _)
  exact absurd (h _ hmem) (by decide)

/-! ## Lemmas about the fetch loop -/

theorem pageStep_tp (body tp : Json) (recs : List Json) (tp2 : Json)
    (h : pageStep body tp = some (recs, tp2)) : tp2 = (extractStep body tp).2 := by
  cases body with
  | obj kvs =>
    simp only [pageStep] at h
    by_cases hp : pyTruthy (extractStep (Json.obj kvs) tp).1
    · rw [if_pos hp] at h
      cases hri : resultsIter (extractStep (Json.obj kvs) tp).1 with
      | none => simp only [hri] at h; exact Option.noConfusion h
      | some xs =>
        simp only [hri] at h
        cases hsa : sanitizeAll xs with
        | none => simp only [hsa] at h; exact Option.noConfusion h
        | some cleaned =>
          simp only [hsa] at h
          simp only [Option.some.injEq, Prod.mk.injEq] at h
          exact h.2.symm
    · rw [if_neg hp] at h
      cases h
  | null => exact Option.noConfusion h
  | bool b => exact Option.noConfusion h
  | num n => exact Option.noConfusion h
  | str s => exact Option.noConfusion h
  | arr xs => exact Option.noConfusion h

theorem fetchStep_some (pages : Nat → PageResp) (page : Nat) (tp : Json)
    (recs : List Json) (tp2 : Json) (h : fetchStep pages page tp = some (recs, tp2)) :
    ∃ (s : Nat) (body : Json), pages page = .resp s body ∧ pageStep body tp = some (recs, tp2) := by
  cases hp : pages page with
  | exn => simp only [fetchStep, hp] at h; exact Option.noConfusion h
  | resp s body =>
    simp only [fetchStep, hp] at h
    by_cases h1 : s = 401
    · rw [if_pos h1] at h; exact Option.noConfusion h
    · rw [if_neg h1] at h
      by_cases h2 : 400 ≤ s
      · rw [if_pos h2] at h; exact Option.noConfusion h
      · rw [if_neg h2] at h
        exact ⟨s, body, rfl, h⟩

theorem fetchLoop_no_fuelOut (pages : Nat → PageResp) (T : Nat)
    (H : ∀ (p s : Nat) (b tpOld : Json) (m : Int),
       pages p = .resp s b → tpVal (extractStep b tpOld).2 = some m → m ≤ (T : Int)) :
    ∀ (fuel page : Nat) (tp : Json) (acc : List Json) (trc : List (Nat × Json)),
      (∀ m : Int, tpVal tp = some m → m ≤ (T : Int)) →
      T + 2 ≤ page + fuel → 1 ≤ fuel →
      (fetchLoop pages fuel page tp acc trc).1 ≠ .fuelOut := by
  intro fuel
  induction fuel with
  | zero => intro page tp acc trc hinv hle h1; omega
  | succ f ih =>
    intro page tp acc trc hinv hle _
    cases htp : tpVal tp with
    | none =>
      have hc : pyLeIntJson page tp = none := by simp [pyLeIntJson, htp]
      simp [fetchLoop, hc]
    | some m =>
      have hm : m ≤ (T : Int) := hinv m htp
      by_cases hcond : ((page : Int) ≤ m)
      · have hc : pyLeIntJson page tp = some true := by simp [pyLeIntJson, htp, hcond]
        cases hfs : fetchStep pages page tp with
        | none => simp [fetchLoop, hc, hfs]
        | some pr =>
          obtain ⟨recs, tp2⟩ := pr
          have e : fetchLoop pages (f + 1) page tp acc trc
              = fetchLoop pages f (page + 1) tp2 (acc ++ recs) (trc ++ [(page, tp2)]) := by
            simp [fetchLoop, hc, hfs]
          rw [e]
          have hpageT : page ≤ T := by
            have : (page : Int) ≤ (T : Int) := le_trans hcond hm
            exact_mod_cast this
          apply ih
          · obtain ⟨s, body, hpb, hps⟩ := fetchStep_some pages page tp recs tp2 hfs
            have htp2 : tp2 = (extractStep body tp).2 := pageStep_tp body tp recs tp2 hps
            intro m2 hm2
            rw [htp2] at hm2
            exact H page s body tp m2 hpb hm2
          · omega
          · omega
      · have hc : pyLeIntJson page tp = some false := by simp [pyLeIntJson, htp, hcond]
        simp [fetchLoop, hc]

theorem fetchLoop_trace_append (pages : Nat → PageResp) :
    ∀ (fuel page : Nat) (tp : Json) (acc : List Json) (trc : List (Nat × Json)),
      (fetchLoop pages fuel page tp acc trc).2
        = trc ++ (fetchLoop pages fuel page tp acc []).2 := by
  intro fuel
  induction fuel with
  | zero => intro page tp acc trc; simp [fetchLoop]
  | succ f ih =>
    intro page tp acc trc
    cases hc : pyLeIntJson page tp with
    | none => simp [fetchLoop, hc]
    | some b =>
      cases b with
      | false => simp [fetchLoop, hc]
      | true =>
        cases hfs : fetchStep pages page tp with
        | none => simp [fetchLoop, hc, hfs]
        | some pr =>
          obtain ⟨recs, tp2⟩ := pr
          have e1 : (fetchLoop pages (f + 1) page tp acc trc).2
              = (fetchLoop pages f (page + 1) tp2 (acc ++ recs) (trc ++ [(page, tp2)])).2 := by
            simp [fetchLoop, hc, hfs]
          have e2 : (fetchLoop pages (f + 1) page tp acc []).2
              = (fetchLoop pages f (page + 1) tp2 (acc ++ recs) ([(page, tp2)])).2 := by
            simp [fetchLoop, hc, hfs]
          rw [e1, e2, ih (page + 1) tp2 (acc ++ recs) (trc ++ [(page, tp2)]),
            ih (page + 1) tp2 (acc ++ recs) [(page, tp2)]]
          simp

theorem fetchLoop_trace_head (pages : Nat → PageResp) :
    ∀ (fuel page : Nat) (tp : Json) (acc : List Json) (e : Nat × Json)
      (rest : List (Nat × Json)),
      (fetchLoop pages fuel page tp acc []).2 = e :: rest →
      pyLeIntJson page tp = some true ∧ e.1 = page := by
  intro fuel page tp acc e rest h
  cases fuel with
  | zero => cases h
  | succ f =>
    cases hc : pyLeIntJson page tp with
    | none => rw [fetchLoop, hc] at h; cases h
    | some b =>
      cases b with
      | false => rw [fetchLoop, hc] at h; cases h
      | true =>
        cases hfs : fetchStep pages page tp with
        | none => rw [fetchLoop, hc, hfs] at h; cases h
        | some pr =>
          obtain ⟨recs, tp2⟩ := pr
          simp only [fetchLoop, hc, hfs, List.nil_append] at h
          rw [fetchLoop_trace_append pages f (page + 1) tp2 (acc ++ recs) [(page, tp2)]] at h
          simp only [List.singleton_append] at h
          cases h
          exact ⟨rfl, rfl⟩

theorem fetchLoopChain (pages : Nat → PageResp) :
    ∀ (fuel page : Nat) (tp : Json) (acc : List Json),
      List.Chain' (fun a b => pyLeIntJson (a.1 + 1) a.2 = some true ∧ b.1 = a.1 + 1)
        ((fetchLoop pages fuel page tp acc []).2) := by
  intro fuel
  induction fuel with
  | zero => intro page tp acc; simp [fetchLoop]
  | succ f ih =>
    intro page tp acc
    cases hc : pyLeIntJson page tp with
    | none => simp [fetchLoop, hc]
    | some b =>
      cases b with
      | false => simp [fetchLoop, hc]
      | true =>
        cases hfs : fetchStep pages page tp with
        | none => simp [fetchLoop, hc, hfs]
        | some pr =>
          obtain ⟨recs, tp2⟩ := pr
          have e : (fetchLoop pages (f + 1) page tp acc []).2
              = (page, tp2) :: (fetchLoop pages f (page + 1) tp2 (acc ++ recs) []).2 := by
            simp only [fetchLoop, hc, hfs, List.nil_append]
            rw [fetchLoop_trace_append pages f (page + 1) tp2 (acc ++ recs) [(page, tp2)]]
            simp
          rw [e]
          rw [List.chain'_cons']
          refine ⟨?_, ih (page + 1) tp2 (acc ++ recs)⟩
          intro y hy
          cases hD : (fetchLoop pages f (page + 1) tp2 (acc ++ recs) []).2 with
          | nil => rw [hD] at hy; cases hy
          | cons e2 rest =>
            rw [hD] at hy
            simp only [List.head?_cons, Option.mem_def, Option.some.injEq] at hy
            subst hy
            have := fetchLoop_trace_head pages f (page + 1) tp2 (acc ++ recs) e2 rest hD
            exact ⟨this.1, this.2⟩

/-! ## Claim theorems: C5, C6 (amended) -/

/-- C5: the aggregation loop always terminates within the claimed page
budget and stops early on an empty page.  (1) If every successful
response's extracted `totalPages` value is bounded by `T ≥ 1`, the
loop from page 1 finishes within `T + 1` evaluations of the loop
condition — fuel `T + 1` is never exhausted.  (2) If the page the loop
is about to process extracts an empty (falsy) record list from a
2xx/3xx response, the loop returns the accumulator immediately and
without error, whatever `totalPages` claimed. -/
theorem c5_termination :
    (∀ (pages : Nat → PageResp) (T : Nat),
       (∀ (p s : Nat) (b tpOld : Json) (m : Int),
          pages p = .resp s b → tpVal (extractStep b tpOld).2 = some m → m ≤ (T : Int)) →
       1 ≤ T →
       ∀ fuel : Nat, T + 1 ≤ fuel →
         (fetchLoop pages fuel 1 (.num 1) [] []).1 ≠ .fuelOut)
    ∧ (∀ (pages : Nat → PageResp) (fuel page : Nat) (tp : Json) (acc : List Json)
         (trc : List (Nat × Json)) (s : Nat) (body : Json),
         pyLeIntJson page tp = some true → pages page = .resp s body →
         ¬ s = 401 → s < 400 →
         pyTruthy (extractStep body tp).1 = false →
         (fetchLoop pages (fuel + 1) page tp acc trc).1 = .ok acc) := by
  constructor
  · intro pages T H hT fuel hfuel
    apply fetchLoop_no_fuelOut pages T H
    · intro m hm
      have hm1 : some (1 : Int) = some m := hm
      injection hm1 with hm2
      rw [← hm2]
      exact_mod_cast hT
    · omega
    · omega
  · intro pages fuel page tp acc trc s body hcond hresp hs401 hs400 hempty
    have hps : pageStep body tp = none := by
      cases body with
      | obj kvs => simp [pageStep, hempty]
      | null => rfl
      | bool b => rfl
      | num n => rfl
      | str s2 => rfl
      | arr xs => rfl
    have hfs : fetchStep pages page tp = none := by
      simp only [fetchStep, hresp, if_neg hs401, if_neg (Nat.not_le.mpr hs400)]
      exact hps
    simp [fetchLoop, hcond, hfs]

/-- Witness for C5: a transport reporting `totalPages = 3` with
nonempty pages terminates within fuel 4, and a transport whose first
page has an empty record list returns an empty collection at once. -/
theorem c5_witness :
    (fetchLoop c5okPages 4 1 (.num 1) [] []).1 ≠ .fuelOut
    ∧ (fetchLoop c5emptyPages 1 1 (.num 1) [] []).1 = .ok [] := by
  constructor
  · apply c5_termination.1 c5okPages 3
    · intro p s b tpOld m hp hm
      have hp2 : PageResp.resp 200 c5okBody = PageResp.resp s b := hp
      injection hp2 with h1 h2
      subst h2
      have hm2 : some (3 : Int) = some m := hm
      injection hm2 with hm3
      rw [← hm3]
      decide
    · decide
    · decide
  · exact c5_termination.2 c5emptyPages 0 1 (.num 1) [] [] 200 c5emptyBody rfl rfl
      (by decide) (by decide) rfl

/-- C6 (amended): each successful-page update assigns `totalPages`
directly from the extractor with no floor at the current page, so the
value can drop below the page number (see the counterexample); what
does hold is that whenever an update leaves `totalPages` below
`page + 1`, it is the last update of the run: along the update trace,
every entry with a successor satisfies the continuation condition
`page + 1 <= totalPages`, and page numbers increase by exactly one. -/
theorem c6_amended :
    ∀ (transport : String → Nat → PageResp) (fuel : Nat) (token : String),
      List.Chain' (fun a b => pyLeIntJson (a.1 + 1) a.2 = some true ∧ b.1 = a.1 + 1)
        ((fetch_all_records transport fuel token).2) :=
  fun transport fuel token => fetchLoopChain (transport token) fuel 1 (.num 1) []

/-! ## Lemmas about substring matching and fuzzy ranking -/

theorem containsSub_eq_true_iff (hay needle : List Char) :
    containsSub hay needle = true ↔ needle <:+: hay := by
  induction hay with
  | nil => simp [containsSub, List.isEmpty_iff, List.infix_nil]
  | cons c t ih =>
    simp [containsSub, ih, List.isPrefixOf_iff_prefix, List.infix_cons_iff]

theorem searchMatches_mem :
    ∀ (records : List Json) (keywords : List String) (ms : List Json),
      searchMatches records keywords = some ms →
      ∀ r : Json, r ∈ ms ↔ (r ∈ records ∧ ∃ k ∈ keywords, ∃ t : String,
        combinedText r = some t ∧ containsSub t.data k.data = true) := by
  intro records
  induction records with
  | nil =>
    intro keywords ms h r
    simp only [searchMatches] at h
    injection h with h2
    subst h2
    simp
  | cons r0 rs ih =>
    intro keywords ms h r
    simp only [searchMatches] at h
    cases hct : combinedText r0 with
    | none => simp only [hct] at h; exact Option.noConfusion h
    | some t0 =>
      simp only [hct] at h
      cases hrec : searchMatches rs keywords with
      | none => simp only [hrec] at h; exact Option.noConfusion h
      | some ms0 =>
        simp only [hrec] at h
        injection h with h2
        subst h2
        by_cases hmatch : keywords.any (fun k => strContains t0 k) = true
        · rw [if_pos hmatch]
          constructor
          · intro hr
            cases hr with
            | head =>
              obtain ⟨k, hk, hko⟩ := List.any_eq_true.mp hmatch
              exact ⟨List.Mem.head _, k, hk, t0, hct, hko⟩
            | tail _ htail =>
              obtain ⟨hmem, rest⟩ := (ih keywords ms0 hrec r).mp htail
              exact ⟨List.Mem.tail _ hmem, rest⟩
          · rintro ⟨hmem, k, hk, t, hctr, hsub⟩
            cases hmem with
            | head => exact List.Mem.head _
            | tail _ htail =>
              exact List.Mem.tail _ ((ih keywords ms0 hrec r).mpr ⟨htail, k, hk, t, hctr, hsub⟩)
        · rw [if_neg hmatch]
          constructor
          · intro hr
            obtain ⟨hmem, rest⟩ := (ih keywords ms0 hrec r).mp hr
            exact ⟨List.Mem.tail _ hmem, rest⟩
          · rintro ⟨hmem, k, hk, t, hctr, hsub⟩
            cases hmem with
            | head =>
              exfalso
              rw [hct] at hctr
              injection hctr with he
              subst he
              exact hmatch (List.any_eq_true.mpr ⟨k, hk, hsub⟩)
            | tail _ htail =>
              exact (ih keywords ms0 hrec r).mpr ⟨htail, k, hk, t, hctr, hsub⟩

theorem mem_insertDesc (x a : Json × Nat) :
    ∀ (l : List (Json × Nat)), a ∈ insertDesc x l ↔ a = x ∨ a ∈ l := by
  intro l
  induction l with
  | nil => simp [insertDesc]
  | cons y ys ih =>
    by_cases hxy : y.2 ≤ x.2
    · rw [insertDesc, if_pos hxy]
      simp
    · rw [insertDesc, if_neg hxy]
      simp only [List.mem_cons, ih]
      tauto

theorem mem_sortDesc (a : Json × Nat) :
    ∀ (l : List (Json × Nat)), a ∈ sortDesc l ↔ a ∈ l := by
  intro l
  induction l with
  | nil => simp [sortDesc]
  | cons y ys ih =>
    rw [sortDesc, mem_insertDesc]
    simp [ih]

theorem pairwise_insertDesc (x : Json × Nat) :
    ∀ (l : List (Json × Nat)), List.Pairwise (fun a b => b.2 ≤ a.2) l →
      List.Pairwise (fun a b => b.2 ≤ a.2) (insertDesc x l) := by
  intro l
  induction l with
  | nil => intro _; simp [insertDesc]
  | cons y ys ih =>
    intro h
    rw [List.pairwise_cons] at h
    by_cases hxy : y.2 ≤ x.2
    · rw [insertDesc, if_pos hxy]
      rw [List.pairwise_cons]
      refine ⟨?_, List.pairwise_cons.mpr ⟨h.1, h.2⟩⟩
      intro b hb
      cases hb with
      | head => exact hxy
      | tail _ htail => exact le_trans (h.1 b htail) hxy
    · rw [insertDesc, if_neg hxy]
      rw [List.pairwise_cons]
      refine ⟨?_, ih h.2⟩
      intro b hb
      rw [mem_insertDesc] at hb
      cases hb with
      | inl he => subst he; exact Nat.le_of_lt (Nat.lt_of_not_le hxy)
      | inr hm => exact h.1 b hm

theorem pairwise_sortDesc :
    ∀ (l : List (Json × Nat)), List.Pairwise (fun a b => b.2 ≤ a.2) (sortDesc l) := by
  intro l
  induction l with
  | nil => simp [sortDesc]
  | cons y ys ih => exact pairwise_insertDesc y (sortDesc ys) ih

theorem filter_insertDesc (x : Json × Nat) (n : Nat) :
    ∀ (l : List (Json × Nat)),
      (insertDesc x l).filter (fun p => p.2 == n)
        = if x.2 = n then x :: l.filter (fun p => p.2 == n)
          else l.filter (fun p => p.2 == n) := by
  intro l
  induction l with
  | nil =>
    by_cases hx : x.2 = n
    · simp [insertDesc, List.filter_cons, hx]
    · simp [insertDesc, List.filter_cons, hx]
  | cons y ys ih =>
    by_cases hxy : y.2 ≤ x.2
    · rw [insertDesc, if_pos hxy]
      by_cases hx : x.2 = n
      · simp [List.filter_cons, hx]
      · simp [List.filter_cons, hx]
    · rw [insertDesc, if_neg hxy]
      rw [List.filter_cons, ih]
      by_cases hy : y.2 = n
      · by_cases hx : x.2 = n
        · exfalso
          omega
        · simp [hy, hx, List.filter_cons]
      · by_cases hx : x.2 = n
        · simp [hy, hx, List.filter_cons]
        · simp [hy, hx, List.filter_cons]

theorem filter_sortDesc (n : Nat) :
    ∀ (l : List (Json × Nat)),
      (sortDesc l).filter (fun p => p.2 == n) = l.filter (fun p => p.2 == n) := by
  intro l
  induction l with
  | nil => rfl
  | cons y ys ih =>
    rw [sortDesc, filter_insertDesc y n (sortDesc ys), ih, List.filter_cons]
    by_cases hy : y.2 = n
    · simp [hy]
    · simp [hy]

theorem mapSum_le (keywords : List String) (f : String → Nat) (h : ∀ k, f k ≤ 100) :
    (keywords.map f).sum ≤ 100 * keywords.length := by
  induction keywords with
  | nil => simp
  | cons k ks ih =>
    simp only [List.map_cons, List.sum_cons, List.length_cons]
    have := h k
    omega

/-! ## Claim theorems: C8, C9 -/

/-- C8: in substring ANY mode, whenever the match loop completes
(every record's projection is defined), a record is in the result iff
it is in the collection and at least one keyword is a substring
(infix) of its lowercase text projection; and on the spec's concrete
example — records `{title: "Energy project A"}`, `{title: "Water
project B"}` with keyword `"energy"` — exactly the first record is
returned. -/
theorem c8_substring :
    (∀ (records : List Json) (keywords : List String) (ms : List Json),
       keywords ≠ [] →
       searchMatches records keywords = some ms →
       ∀ r : Json, r ∈ ms ↔ (r ∈ records ∧ ∃ k ∈ keywords, ∃ t : String,
         combinedText r = some t ∧ k.data <:+: t.data))
    ∧ searchMatches [recEnergy, recWater] ["energy"] = some [recEnergy] := by
  constructor
  · intro records keywords ms _ h r
    rw [searchMatches_mem records keywords ms h r]
    simp only [containsSub_eq_true_iff]
  · rfl

/-- Witness for C8: the energy record is a member of the example
result and has a keyword occurring inside its projection. -/
theorem c8_witness :
    recEnergy ∈ ([recEnergy, recWater] : List Json)
    ∧ ∃ k ∈ (["energy"] : List String), ∃ t : String,
        combinedText recEnergy = some t ∧ k.data <:+: t.data := by
  have h := (c8_substring.1 [recEnergy, recWater] ["energy"] [recEnergy]
    (by simp) c8_substring.2 recEnergy).mp (List.Mem.head _)
  exact ⟨h.1, h.2⟩

/-- C9 (modelled from the spec; src/ has no fuzzy endpoint): for every
similarity measure, record collection and keyword list, each record of
the fuzzy result carries the summed per-keyword score of a collection
record and exceeds the threshold (sum > 60·#keywords, i.e. average
> 60); the result has at most 20 entries and is sorted by descending
score; if the measure is 0-100-valued, so is each average (sum ≤
100·#keywords); and the sort is stable: for each score value, the
ranked list restricted to that score equals the kept list restricted
to it, i.e. ties keep collection order. -/
theorem c9_fuzzy :
    ∀ (score : String → String → Nat) (records : List Json) (keywords : List String),
      (∀ p ∈ fuzzySearch score records keywords,
         60 * keywords.length < p.2 ∧ ∃ r ∈ records, p = (r, fuzzyTotal score keywords r))
      ∧ (fuzzySearch score records keywords).length ≤ 20
      ∧ List.Pairwise (fun a b => b.2 ≤ a.2) (fuzzySearch score records keywords)
      ∧ ((∀ k t, score k t ≤ 100) →
         ∀ p ∈ fuzzySearch score records keywords, p.2 ≤ 100 * keywords.length)
      ∧ (∀ n : Nat, (sortDesc (fuzzyKept score records keywords)).filter (fun p => p.2 == n)
          = (fuzzyKept score records keywords).filter (fun p => p.2 == n)) := by
  intro score records keywords
  have hmem : ∀ p, p ∈ fuzzySearch score records keywords →
      (60 * keywords.length < p.2 ∧ ∃ r ∈ records, p = (r, fuzzyTotal score keywords r)) := by
    intro p hp
    have hp2 : p ∈ sortDesc (fuzzyKept score records keywords) := List.mem_of_mem_take hp
    rw [mem_sortDesc] at hp2
    unfold fuzzyKept at hp2
    rw [List.mem_filter] at hp2
    refine ⟨of_decide_eq_true hp2.2, ?_⟩
    obtain ⟨r, hr, he⟩ := List.mem_map.mp hp2.1
    exact ⟨r, hr, he.symm⟩
  refine ⟨hmem, ?_, ?_, ?_, fun n => filter_sortDesc n _⟩
  · show ((sortDesc (fuzzyKept score records keywords)).take 20).length ≤ 20
    rw [List.length_take]
    exact min_le_left _ _
  · exact (pairwise_sortDesc _).sublist (List.take_sublist _ _)
  · intro hs p hp
    obtain ⟨_, r, _, he⟩ := hmem p hp
    rw [he]
    exact mapSum_le keywords (fun k => score k (fuzzyProj r)) (fun k => hs k _)

/-- Witness for C9 at a concrete input: one record, one keyword,
constant score 90 — kept (90 > 60), bounded (90 ≤ 100), listed. -/
theorem c9_witness :
    fuzzySearch c9score [recEnergy] ["mkt"] = [(recEnergy, 90)]
    ∧ 60 * (["mkt"] : List String).length < ((recEnergy, 90) : Json × Nat).2
    ∧ ((recEnergy, 90) : Json × Nat).2 ≤ 100 * (["mkt"] : List String).length := by
  have hEq : fuzzySearch c9score [recEnergy] ["mkt"] = [(recEnergy, 90)] := rfl
  have hm : ((recEnergy, 90) : Json × Nat) ∈ fuzzySearch c9score [recEnergy] ["mkt"] := by
    rw [hEq]
    exact List.Mem.head _
  refine ⟨hEq, ((c9_fuzzy c9score [recEnergy] ["mkt"]).1 _ hm).1, ?_⟩
  exact (c9_fuzzy c9score [recEnergy] ["mkt"]).2.2.2.1
    (fun _ _ => (by decide : (90 : Nat) ≤ 100)) _ hm
